import Mathlib

/-!
Verification of the natural-language specification of the LinkedIn Ads
connector components (`source_linkedin_ads/components.py`) and of the
file-based CDK schema helpers (`file_based/schema_helpers.py`).

Records and Python dictionaries are modelled as association lists from
string keys to values, in insertion order (Python dicts preserve insertion
order, and never hold two entries with the same key).  Fallible Python code
(a `KeyError`, an `assert`, a raised exception) is modelled with
`Option`/`Except`.
-/

/-- A JSON record extracted from an API response: an association list from
field name to (string) value, in insertion order.  Real records never have
duplicate keys, since they come from Python dicts. -/
abbrev Rec := List (String × String)

/-- Python `d.get(k)` / `d[k]` on an association list: the value at the
first occurrence of the key, if any. -/
def pyLookup {α : Type} (l : List (String × α)) (k : String) : Option α :=
  (l.find? (fun kv => kv.1 == k)).map Prod.snd

/-- Python `d[k] = v` on an association list: replace the value at the
first occurrence of `k` in place (a dict keeps the key at its original
insertion position), or append `(k, v)` when `k` is absent. -/
def dictSet {α : Type} : List (String × α) → String → α → List (String × α)
  | [], k, v => [(k, v)]
  | kv :: rest, k, v => if kv.1 == k then (k, v) :: rest else kv :: dictSet rest k v

/-- `record[field]` for records, `Prod.snd` of the first matching entry. -/
def lookupField (r : Rec) (f : String) : Option String :=
  pyLookup r f

/-- Python truthiness of an optional string: `None` and the empty string
are falsy, every other string is truthy. -/
def isTruthy : Option String → Bool
  | none => false
  | some s => !(s == "")

/-- Python string comparison `a < b`, spelled out on the underlying
character lists: lexicographic order on Unicode code points.  (This is
also the order Lean gives `String`; we state it explicitly so that it is
computable by the kernel.) -/
def pyStrLtList : List Char → List Char → Bool
  | [], [] => false
  | [], _ :: _ => true
  | _ :: _, [] => false
  | a :: as, b :: bs =>
    if a.val.toNat < b.val.toNat then true
    else if b.val.toNat < a.val.toNat then false
    else pyStrLtList as bs

/-- Python `a < b` on strings. -/
def pyLt (a b : String) : Bool :=
  pyStrLtList a.data b.data

/-- Python `a <= b` on strings: strings are totally ordered, so `a <= b`
is the negation of `b < a`. -/
def pyLe (a b : String) : Bool :=
  !(pyLt b a)

/-- Python `max` of two strings: the second argument replaces the first
only when it is strictly greater. -/
def pyMax (a b : String) : String :=
  if pyLt a b then b else a

/-- Python `filter(None, l)`: drop the falsy elements (`None` and `""`). -/
def pyFilterTruthy (l : List (Option String)) : List String :=
  l.filterMap (fun x =>
    match x with
    | some s => if s == "" then none else some s
    | none => none)

/-- Python `max(l, default=d)`: fold `pyMax` over a nonempty list, return
the default on an empty one. -/
def pyMaxList (l : List String) (d : Option String) : Option String :=
  match l with
  | [] => d
  | x :: xs => some (xs.foldl pyMax x)

/-- Embeds `LinkedInSemiIncrementalFilter._get_filter_date`
(components.py lines 198-209): if the state value is truthy, return
`max(filter(None, [start_date, state_value]), default=start_date)`;
otherwise return the start date (`start_date or None` and a falsy
`start_date` both end up falsy). -/
def get_filter_date (start_date state_value : Option String) : Option String :=
  if isTruthy state_value then
    pyMaxList (pyFilterTruthy [start_date, state_value]) start_date
  else start_date

/-- One per-partition entry of `stream_state["states"]`:
`entry.get("partition", {}).get("id")` and the persisted `"cursor"` dict. -/
structure StateEntry where
  partitionId : Option String
  cursor : Rec
deriving DecidableEq

/-- The list comprehension
`[record for record in records if record[cf] >= cursor_value]` from
`filter_records` (components.py line 195).  `record[cf]` raises `KeyError`
when the field is missing, modelled as `none` for the whole call. -/
def filterGE (cf cv : String) : List Rec → Option (List Rec)
  | [] => some []
  | r :: rs =>
    match lookupField r cf with
    | none => none
    | some v => (filterGE cf cv rs).map (fun rest => if pyLe cv v then r :: rest else rest)

/-- The tail of `filter_records`: when the computed cursor value is truthy,
keep the records whose cursor-field value is at least the cutoff, else
return the records unchanged (components.py lines 194-196). -/
def applyCutoff (cf : String) (cv : Option String) (records : List Rec) : Option (List Rec) :=
  match cv with
  | some s => if s == "" then some records else filterGE cf s records
  | none => some records

/-- Embeds `LinkedInSemiIncrementalFilter.filter_records`
(components.py lines 174-196) in its default configuration
(`cursor_field` is not `"lastModifiedAt"` and `format` is not
`"timestamp"`), where `config.get("start_date")` is used directly as a
string.  The per-partition state entries are filtered by partition id
(Python `==`, where `None == None` holds), the persisted cursor value is
read with `state_value[0]["cursor"][cursor_field]` (a `KeyError`, hence
`none`, when the cursor dict lacks the field), and records are filtered
against the `get_filter_date` cutoff.  `none` models a raised `KeyError`. -/
def filter_records (cf : String) (config_start : Option String) (states : List StateEntry)
    (sliceId : Option String) (records : List Rec) : Option (List Rec) :=
  match states.filter (fun e => e.partitionId == sliceId) with
  | [] => applyCutoff cf (get_filter_date config_start none) records
  | e :: _ =>
    match lookupField e.cursor cf with
    | none => none
    | some sv => applyCutoff cf (get_filter_date config_start (some sv)) records

/-- Spec-side predicate used only to state theorems: a record is kept by
the cursor filter iff its cursor-field value exists and is at least the
cutoff. -/
def keepsB (cf c : String) (r : Rec) : Bool :=
  match lookupField r cf with
  | some v => pyLe c v
  | none => false

/-- The chunking comprehension of
`AnalyticsDatetimeBasedCursor.chunk_analytics_fields`
(components.py line 104), with explicit fuel so the recursion is
structural: contiguous runs of `n` fields, the last run possibly shorter.
For a positive `n` the fuel chosen by `makeChunks` is never exhausted; for
`n = 0` the source raises `ValueError` inside `range`, and every claim
assumes a positive chunk size. -/
def makeChunksAux (n : Nat) : Nat → List String → List (List String)
  | 0, _ => []
  | _ + 1, [] => []
  | fuel + 1, f :: fs => (f :: fs).take n :: makeChunksAux n fuel ((f :: fs).drop n)

/-- The chunk list `[fields[f : f + n] for f in range(0, len(fields), n)]`:
run the chunking loop with enough fuel for a positive chunk size. -/
def makeChunks (fields : List String) (n : Nat) : List (List String) :=
  makeChunksAux n fields.length fields

/-- The forced-field postprocessing of `chunk_analytics_fields`
(components.py lines 106-110): append `"dateRange"` when absent, then
append `"pivotValues"` when absent. -/
def forcePivot (c1 : List String) : List String :=
  if "pivotValues" ∈ c1 then c1 else c1 ++ ["pivotValues"]

/-- The two forced appends of `chunk_analytics_fields` on one chunk:
append `"dateRange"` when absent, then append `"pivotValues"` when absent
(the second check runs on the possibly extended chunk, as in the source
loop). -/
def forceBase (c : List String) : List String :=
  forcePivot (if "dateRange" ∈ c then c else c ++ ["dateRange"])

/-- Embeds `AnalyticsDatetimeBasedCursor.chunk_analytics_fields`
(components.py lines 95-111): chunk the field list, then force the two
base fields into every chunk. -/
def chunk_analytics_fields (fields : List String) (n : Nat) : List (List String) :=
  (makeChunks fields n).map forceBase

/-- Modelled from the spec: the CDK helper
`DatetimeBasedCursor._evaluate_next_start_date_safely` is not under
`src/`; per spec section 4.3 it is overflow-safe `start + step`, which over
unbounded integers is plain addition. -/
def evaluateNextStartDateSafely (start step : Int) : Int :=
  start + step

/-- Modelled from the spec: the CDK helper
`DatetimeBasedCursor._get_date(a, b, min)` is not under `src/`; per spec
section 4.3 it is `min a b` (the window end is clamped to the overall
end). -/
def getDateMin (a b : Int) : Int :=
  min a b

/-- One `StreamSlice` produced by `_partition_daterange`: the window start
and (clamped) window end, as day numbers, plus the per-chunk joined field
lists carried in `field_date_chunks`.  The calendar rendering of the
boundary dates (`_format_datetime` and the `start.day/month/year`
decomposition) is not modelled; the window arithmetic is kept on abstract
day numbers. -/
structure DateSlice where
  startDate : Int
  endDate : Int
  fieldChunks : List String
deriving DecidableEq

/-- The `while start <= end` loop of
`AnalyticsDatetimeBasedCursor._partition_daterange`
(components.py lines 113-144), with explicit fuel so the function is total:
each iteration emits the window
`[start, min (start + step - granularity) end]` and advances `start` by
`step`.  The source loop terminates exactly when `step` is positive, in
which case the fuel chosen by `partition_daterange` is never exhausted. -/
def partitionAux (chunks : List String) (step gran : Int) :
    Nat → Int → Int → List DateSlice
  | 0, _, _ => []
  | fuel + 1, start, endD =>
    if start ≤ endD then
      { startDate := start,
        endDate := getDateMin (evaluateNextStartDateSafely start step - gran) endD,
        fieldChunks := chunks } ::
        partitionAux chunks step gran fuel (evaluateNextStartDateSafely start step) endD
    else []

/-- Embeds `AnalyticsDatetimeBasedCursor._partition_daterange`: run the
window loop with enough fuel for a positive step.  `chunks` is the list of
comma-joined field chunks (the source recomputes the identical
`chunk_analytics_fields()` sequence on every iteration). -/
def partition_daterange (chunks : List String) (step gran start endD : Int) : List DateSlice :=
  partitionAux chunks step gran ((endD + 1 - start).toNat) start endD

/-- The two date-time field names rewritten by
`LinkedInAdsRecordExtractor._date_time_to_rfc3339`
(components.py line 154). -/
def normFields : List String :=
  ["lastModified", "created"]

/-- One entry of the `_date_time_to_rfc3339` loop: a configured field with
a truthy (non-empty) value is rewritten through the date-time parser, any
other entry is left untouched.  `parse` abstracts the external
`pendulum.parse(...).to_rfc3339_string()` pipeline; `none` models the
`ParserError` it raises on an unparseable value. -/
def rewriteOne (parse : String → Option String) (kv : String × String) :
    Option (String × String) :=
  if kv.1 ∈ normFields ∧ kv.2 ≠ "" then (parse kv.2).map (fun v2 => (kv.1, v2))
  else some kv

/-- Embeds `LinkedInAdsRecordExtractor._date_time_to_rfc3339`
(components.py lines 149-156): rewrite each configured, present, non-empty
date-time field of the record; `none` models a raised parse error. -/
def date_time_to_rfc3339 (parse : String → Option String) : Rec → Option Rec
  | [] => some []
  | kv :: rest =>
    match rewriteOne parse kv with
    | none => none
    | some kv2 => (date_time_to_rfc3339 parse rest).map (fun r2 => kv2 :: r2)

/-- The observable effect of calling `_date_time_to_rfc3339(record)`: the
source assigns the rewritten values into `record` itself (line 155) and
returns `record` (line 156), so the caller's record object and the
returned record are the same mutated mapping.  We model the call as the
pair (state of the input record after the call, returned record). -/
def date_time_to_rfc3339_call (parse : String → Option String) (r : Rec) :
    Option (Rec × Rec) :=
  (date_time_to_rfc3339 parse r).map (fun r2 => (r2, r2))

/-- Modelled from the spec: the external
`pendulum.parse(...).to_rfc3339_string()` pipeline on the spec's example
value (spec section 8: given a `created` of `2023-05-01T10:00:00Z` the
canonical RFC3339 output pins the UTC offset). -/
def pendulumModel (s : String) : Option String :=
  if s = "2023-05-01T10:00:00Z" then some "2023-05-01T10:00:00+00:00" else none

/-- Python `dict.update(new)` (components.py line 315): write every entry
of `new` into `old` in order, replacing in place or appending. -/
def recUpdate (old new : Rec) : Rec :=
  new.foldl (fun acc kv => dictSet acc kv.1 kv.2) old

/-- The composite merge key of `read_records`
(components.py line 315): the Python f-string
`f"{record['end_date']}-{record['pivotValues']}"`; a missing field raises
`KeyError`, modelled as `none`. -/
def compositeKey (r : Rec) : Option String :=
  match lookupField r "end_date", lookupField r "pivotValues" with
  | some e, some p => some (e ++ "-" ++ p)
  | _, _ => none

/-- `merged_records[key].update(record)` on a `defaultdict(dict)`
(components.py lines 308-315): a fresh key starts from the empty dict. -/
def accUpdate : List (String × Rec) → String → Rec → List (String × Rec)
  | [], k, r => [(k, recUpdate [] r)]
  | e :: rest, k, r =>
    if e.1 == k then (k, recUpdate e.2 r) :: rest else e :: accUpdate rest k r

/-- The merge loop of `LinkedInAdsCustomRetriever.read_records`
(components.py lines 312-315) over the flattened sequence of chunk-response
records, accumulating the keyed `merged_records` dict; `none` models the
`KeyError` raised when a record lacks one of the composite-key fields. -/
def mergeAcc : List Rec → List (String × Rec) → Option (List (String × Rec))
  | [], acc => some acc
  | r :: rs, acc =>
    match compositeKey r with
    | none => none
    | some k => mergeAcc rs (accUpdate acc k r)

/-- Embeds the per-partition merge of `read_records`
(components.py lines 303-317): the records returned by the inner
`super().read_records` calls are given per field chunk, in chunk-iteration
order, and merged by composite key into `merged_records` (the emitted
records are `merged_records.values()`, i.e. the `Prod.snd` projections in
key-insertion order). -/
def read_records_merged (chunkRecords : List (List Rec)) :
    Option (List (String × Rec)) :=
  mergeAcc chunkRecords.flatten []

/-- Spec-side function used only to state theorems: the last value written
to field `f` by the record list `l`, in order (last write wins). -/
def lastWrite (f : String) (l : List Rec) : Option String :=
  l.foldl (fun acc r =>
    match lookupField r f with
    | some v => some v
    | none => acc) none

/-- Spec-side function used only to state theorems: what the accumulator
holds at key `k` after merging `l` on top of an optional initial record. -/
def mergedFor (init : Option Rec) (l : List Rec) : Option Rec :=
  match init, l with
  | none, [] => none
  | _, _ => some (l.foldl recUpdate (init.getD []))

/-- One page response of the paginated fetch loop, reduced to what
`_read_pages` inspects: the next-page token extracted by
`self._next_page_token(response)`, with `none` standing for a falsy token
(Python `None` or an empty mapping). -/
structure PageResponse where
  token : Option String
deriving DecidableEq

/-- Result of running the `_read_pages` generator to exhaustion:
the records it yielded, the number of page fetches it performed, and
whether it aborted with an exception instead of finishing cleanly. -/
structure PageLoopOutcome where
  yielded : List Rec
  fetches : Nat
  raised : Bool
deriving DecidableEq

/-- Embeds the `while not pagination_complete` loop of
`LinkedInAdsCustomRetriever._read_pages` (components.py lines 321-342),
with fuel so the function is total.  Each iteration fetches a page
(`fetch` abstracts `self._fetch_next_page`, with `none` for a falsy
response), then executes the leftover `breakpoint()` on line 331, then
yields the page's records (`recordsOf` abstracts `records_generator_fn`)
and stops when the response or its next-page token is falsy.  The
breakpoint's behaviour is the environment parameter `bpContinues`: `true`
models a run where the debugger hands control back (a debugger operator
typing continue, or `PYTHONBREAKPOINT=0`); `false` models the default
unattended semantics, where `pdb.set_trace` reads EOF from a
non-interactive stdin and raises `BdbQuit` at the next traced line, so the
generator aborts after the fetch and before yielding that page's
records. -/
def read_pages_loop (bpContinues : Bool) (fetch : Option String → Option PageResponse)
    (recordsOf : Option PageResponse → List Rec) : Nat → Option String → PageLoopOutcome
  | 0, _ => { yielded := [], fetches := 0, raised := false }
  | fuel + 1, tok =>
    let resp := fetch tok
    if bpContinues then
      match resp with
      | none => { yielded := recordsOf none, fetches := 1, raised := false }
      | some r =>
        match r.token with
        | none => { yielded := recordsOf (some r), fetches := 1, raised := false }
        | some t2 =>
          let rest := read_pages_loop bpContinues fetch recordsOf fuel (some t2)
          { yielded := recordsOf (some r) ++ rest.yielded,
            fetches := rest.fetches + 1,
            raised := rest.raised }
    else { yielded := [], fetches := 1, raised := true }

/-- `_read_pages` starts with no next-page token. -/
def read_pages (bpContinues : Bool) (fetch : Option String → Option PageResponse)
    (recordsOf : Option PageResponse → List Rec) (fuel : Nat) : PageLoopOutcome :=
  read_pages_loop bpContinues fetch recordsOf fuel none

/-- Concrete single-page fetch script, the failing input for the
pagination claim: every fetch returns a final page with no further
token. -/
def fetchOnePage : Option String → Option PageResponse
  | _ => some { token := none }

/-- Concrete record extractor for the single-page script: the final page
carries one record. -/
def recsOfOnePage : Option PageResponse → List Rec
  | none => []
  | some _ => [[("page", "1")]]

/-- A schema as handled by `schema_helpers.py`: a Python dict from field
name to type, where a value may be `None` (`none` here). -/
abbrev Schema := List (String × Option String)

/-- `supported_types` (schema_helpers.py line 13). -/
def supported_types : List String :=
  ["string"]

/-- Embeds `_is_valid_type` (schema_helpers.py lines 48-49):
`t in supported_types` (Python `None in {"string"}` is false). -/
def is_valid_type (t : Option String) : Bool :=
  match t with
  | some s => supported_types.contains s
  | none => false

/-- The failure modes of `merge_schemas`: the eager `assert` on an
unsupported type (an `AssertionError` naming the key and the type,
schema_helpers.py line 33), and the two `SchemaInferenceError` raises of
`_choose_wider_type` (lines 54-59). -/
inductive SchemaError where
  | assertionError (key : String) (t : Option String)
  | inferenceNull (key : String)
  | inferenceConflict (key t1 t2 : String)
deriving DecidableEq

/-- Spec-side predicate used only to state theorems: the merge failed with
the eager-validation `AssertionError`. -/
def isAssertionError {α : Type} : Except SchemaError α → Bool
  | .error (.assertionError _ _) => true
  | _ => false

/-- Python `t1 or t2` on optional strings: the first operand when truthy,
else the second. -/
def pyOr (a b : Option String) : Option String :=
  if isTruthy a then a else b

/-- Embeds `_choose_wider_type` (schema_helpers.py lines 52-59): both
`None` raises a null-value `SchemaInferenceError`; one `None` returns
`t1 or t2`; two concrete types raise the conflict `SchemaInferenceError`
naming the key and both types. -/
def choose_wider_type (key : String) (t1 t2 : Option String) :
    Except SchemaError (Option String) :=
  match t1, t2 with
  | none, none => .error (.inferenceNull key)
  | none, some b => .ok (pyOr none (some b))
  | some a, none => .ok (pyOr (some a) none)
  | some a, some b => .error (.inferenceConflict key a b)

/-- Python `merged_schema.get(k2)` (schema_helpers.py line 37): a missing
key and a key stored with value `None` both give `None`. -/
def pyGet (s : Schema) (k : String) : Option String :=
  match pyLookup s k with
  | some t => t
  | none => none

/-- The `for k2, t2 in schema2.items()` loop of `merge_schemas`
(schema_helpers.py lines 36-43): add missing keys, skip equal types, and
otherwise widen (propagating a raised `SchemaInferenceError`). -/
def mergeLoop : Schema → List (String × Option String) → Except SchemaError Schema
  | merged, [] => .ok merged
  | merged, (k2, t2) :: rest =>
    match pyGet merged k2 with
    | none => mergeLoop (dictSet merged k2 t2) rest
    | some t1 =>
      if t2 = some t1 then mergeLoop merged rest
      else
        match choose_wider_type k2 (some t1) t2 with
        | .ok v => mergeLoop (dictSet merged k2 v) rest
        | .error e => .error e

/-- Embeds `merge_schemas` (schema_helpers.py lines 16-45): eagerly assert
that every type of `list(schema1.items()) + list(schema2.items())` is
supported (the first offender raises `AssertionError`), then run the merge
loop on a copy of `schema1`. -/
def merge_schemas (s1 s2 : Schema) : Except SchemaError Schema :=
  match (s1 ++ s2).find? (fun kv => !(is_valid_type kv.2)) with
  | some kv => .error (.assertionError kv.1 kv.2)
  | none => mergeLoop s1 s2


/-! ## Generic association-list lemmas -/

theorem pyLookup_cons {α : Type} (kv : String × α) (l : List (String × α)) (k : String) :
    pyLookup (kv :: l) k = if kv.1 = k then some kv.2 else pyLookup l k := by
  by_cases h : kv.1 = k
  · simp [pyLookup, List.find?, h]
  · have hb : (kv.1 == k) = false := beq_eq_false_iff_ne.mpr h
    simp [pyLookup, List.find?, hb, h]

theorem pyLookup_eq_none {α : Type} (l : List (String × α)) (k : String)
    (h : ¬ k ∈ l.map Prod.fst) : pyLookup l k = none := by
  induction l with
  | nil => rfl
  | cons kv rest ih =>
    simp only [List.map_cons, List.mem_cons] at h
    push_neg at h
    rw [pyLookup_cons, if_neg (fun hh => h.1 hh.symm)]
    exact ih h.2

theorem pyLookup_dictSet_self {α : Type} (l : List (String × α)) (k : String) (v : α) :
    pyLookup (dictSet l k v) k = some v := by
  induction l with
  | nil => simp [dictSet, pyLookup_cons]
  | cons kv rest ih =>
    by_cases hk : kv.1 = k
    · have hb : (kv.1 == k) = true := beq_iff_eq.mpr hk
      simp [dictSet, hb, pyLookup_cons]
    · have hb : (kv.1 == k) = false := beq_eq_false_iff_ne.mpr hk
      simp [dictSet, hb, pyLookup_cons, hk, ih]

theorem pyLookup_dictSet_ne {α : Type} (l : List (String × α)) (k : String) (v : α)
    (k' : String) (h : k' ≠ k) : pyLookup (dictSet l k v) k' = pyLookup l k' := by
  induction l with
  | nil => simp [dictSet, pyLookup_cons, Ne.symm h, pyLookup]
  | cons kv rest ih =>
    by_cases hk : kv.1 = k
    · have hb : (kv.1 == k) = true := beq_iff_eq.mpr hk
      have hk' : kv.1 ≠ k' := by rw [hk]; exact Ne.symm h
      simp [dictSet, hb, pyLookup_cons, Ne.symm h, hk', hk]
    · have hb : (kv.1 == k) = false := beq_eq_false_iff_ne.mpr hk
      by_cases h2 : kv.1 = k'
      · simp [dictSet, hb, pyLookup_cons, h2, h]
      · simp [dictSet, hb, pyLookup_cons, h2, h, ih]

theorem dictSet_of_not_mem {α : Type} (l : List (String × α)) (k : String) (v : α)
    (h : ¬ k ∈ l.map Prod.fst) : dictSet l k v = l ++ [(k, v)] := by
  induction l with
  | nil => rfl
  | cons kv rest ih =>
    simp only [List.map_cons, List.mem_cons] at h
    push_neg at h
    have hb : (kv.1 == k) = false := beq_eq_false_iff_ne.mpr (fun hh => h.1 hh.symm)
    simp [dictSet, hb, ih h.2]


/-! ## Cursor-filter lemmas (C1, C6) -/

theorem pyMax_cases (a b : String) : pyMax a b = a ∨ pyMax a b = b := by
  unfold pyMax
  split
  · right; rfl
  · left; rfl

theorem get_filter_date_no_state (start : Option String) :
    get_filter_date start none = start := by
  simp [get_filter_date, isTruthy]

theorem get_filter_date_both (s v : String) (hs : s ≠ "") (hv : v ≠ "") :
    get_filter_date (some s) (some v) = some (pyMax s v) := by
  have hv' : (v == "") = false := beq_eq_false_iff_ne.mpr hv
  have h1 : pyFilterTruthy [some s, some v] = [s, v] := by
    simp [pyFilterTruthy, hs, hv]
  simp [get_filter_date, isTruthy, hv', h1, pyMaxList]

theorem get_filter_date_only_state (v : String) (hv : v ≠ "") :
    get_filter_date none (some v) = some v := by
  have hv' : (v == "") = false := beq_eq_false_iff_ne.mpr hv
  have h1 : pyFilterTruthy [none, some v] = [v] := by
    simp [pyFilterTruthy, hv]
  simp [get_filter_date, isTruthy, hv', h1, pyMaxList]

theorem filterGE_eq (cf c : String) (l : List Rec)
    (h : ∀ r ∈ l, (lookupField r cf).isSome) :
    filterGE cf c l = some (l.filter (keepsB cf c)) := by
  induction l with
  | nil => rfl
  | cons r rs ih =>
    obtain ⟨v, hv⟩ := Option.isSome_iff_exists.mp (h r (List.mem_cons_self r rs))
    rw [List.filter_cons]
    have hrest := ih (fun x hx => h x (List.mem_cons_of_mem r hx))
    cases hcv : pyLe c v
    · simp [filterGE, hv, hrest, keepsB, hcv]
    · simp [filterGE, hv, hrest, keepsB, hcv]

theorem filterGE_none (cf c : String) (l : List Rec) (r : Rec)
    (hm : r ∈ l) (hn : lookupField r cf = none) : filterGE cf c l = none := by
  induction l with
  | nil => cases hm
  | cons x xs ih =>
    rcases List.mem_cons.mp hm with h1 | h2
    · subst h1
      simp [filterGE, hn]
    · cases hx : lookupField x cf
      · simp [filterGE, hx]
      · simp [filterGE, hx, ih h2]

theorem applyCutoff_eq (cf c : String) (records : List Rec) (hc : c ≠ "")
    (hr : ∀ r ∈ records, (lookupField r cf).isSome) :
    applyCutoff cf (some c) records = some (records.filter (keepsB cf c)) := by
  have hc' : (c == "") = false := beq_eq_false_iff_ne.mpr hc
  simp [applyCutoff, hc', filterGE_eq cf c records hr]

/-- Claim C1: for the cursor filter `filter_records`, the effective cutoff
is the maximum of the configured start date and the persisted per-partition
cursor value when both exist, the existing one when only one exists; when a
cutoff exists, exactly the records whose cursor-field value is at least the
cutoff are retained (inclusive lower bound), and when neither exists the
record list is returned unchanged. -/
theorem c1_filter_records_cutoff (cf pid s v : String) (records : List Rec)
    (hs : s ≠ "") (hv : v ≠ "")
    (hr : ∀ r ∈ records, (lookupField r cf).isSome) :
    filter_records cf (some s) [⟨some pid, [(cf, v)]⟩] (some pid) records
        = some (records.filter (keepsB cf (pyMax s v)))
    ∧ filter_records cf (some s) [] (some pid) records
        = some (records.filter (keepsB cf s))
    ∧ filter_records cf none [⟨some pid, [(cf, v)]⟩] (some pid) records
        = some (records.filter (keepsB cf v))
    ∧ filter_records cf none [] (some pid) records = some records := by
  have hmax : pyMax s v ≠ "" := by
    rcases pyMax_cases s v with h | h <;> rw [h] <;> assumption
  have hlook : lookupField [(cf, v)] cf = some v := by
    simp [lookupField, pyLookup_cons]
  refine ⟨?_, ?_, ?_, ?_⟩
  · simp only [filter_records, List.filter, beq_self_eq_true, hlook]
    rw [get_filter_date_both s v hs hv, applyCutoff_eq cf (pyMax s v) records hmax hr]
  · simp only [filter_records, List.filter]
    rw [get_filter_date_no_state, applyCutoff_eq cf s records hs hr]
  · simp only [filter_records, List.filter, beq_self_eq_true, hlook]
    rw [get_filter_date_only_state v hv, applyCutoff_eq cf v records hv hr]
  · simp only [filter_records, List.filter]
    rw [get_filter_date_no_state]
    rfl

/-- Witness for C1, the spec's concrete instance: start date 2024-01-01 and
persisted cursor 2024-03-15 give cutoff 2024-03-15; the record dated
2024-03-15 is retained and the one dated 2024-03-14 is dropped. -/
theorem c1_filter_records_cutoff_witness :
    filter_records "lastModified" (some "2024-01-01")
        [⟨some "p", [("lastModified", "2024-03-15")]⟩] (some "p")
        [[("lastModified", "2024-03-15")], [("lastModified", "2024-03-14")]]
      = some [[("lastModified", "2024-03-15")]] := by
  have h := (c1_filter_records_cutoff "lastModified" "p" "2024-01-01" "2024-03-15"
      [[("lastModified", "2024-03-15")], [("lastModified", "2024-03-14")]]
      (by decide) (by decide) (by decide)).1
  exact h.trans (by decide)

/-! ## Field-chunker lemmas (C3) -/

theorem makeChunksAux_flatten (n : Nat) (hn : 1 ≤ n) :
    ∀ (fuel : Nat) (fields : List String), fields.length ≤ fuel →
      (makeChunksAux n fuel fields).flatten = fields := by
  intro fuel
  induction fuel with
  | zero =>
    intro fields h
    have : fields = [] := List.length_eq_zero.mp (Nat.le_zero.mp h)
    subst this
    rfl
  | succ fuel ih =>
    intro fields h
    match fields with
    | [] => rfl
    | f :: fs =>
      have hlen : ((f :: fs).drop n).length ≤ fuel := by
        simp only [List.length_drop, List.length_cons]
        simp only [List.length_cons] at h
        omega
      simp only [makeChunksAux, List.flatten_cons, ih ((f :: fs).drop n) hlen]
      exact List.take_append_drop n (f :: fs)

theorem mem_forcePivot_self (c1 : List String) : "pivotValues" ∈ forcePivot c1 := by
  unfold forcePivot
  split
  · assumption
  · exact List.mem_append_right _ (List.mem_singleton.mpr rfl)

theorem mem_forcePivot_of_mem (c1 : List String) (a : String) (h : a ∈ c1) :
    a ∈ forcePivot c1 := by
  unfold forcePivot
  split
  · exact h
  · exact List.mem_append_left _ h

theorem mem_forceBase_dateRange (c : List String) : "dateRange" ∈ forceBase c := by
  unfold forceBase
  refine mem_forcePivot_of_mem _ _ ?_
  split
  · assumption
  · exact List.mem_append_right _ (List.mem_singleton.mpr rfl)

theorem mem_forceBase_pivotValues (c : List String) : "pivotValues" ∈ forceBase c := by
  unfold forceBase
  exact mem_forcePivot_self _

/-- Claim C3: for every field list and positive chunk size,
`chunk_analytics_fields` yields only chunks that contain both `dateRange`
and `pivotValues` (each forced in independently by `forceBase` when not
already present), and concatenating the chunks' non-forced elements — the
contiguous input runs `makeChunks fields n`, before the forced appends —
reproduces the original field list in order. -/
theorem c3_chunk_analytics_fields (fields : List String) (n : Nat) (hn : 1 ≤ n) :
    (∀ c ∈ chunk_analytics_fields fields n, "dateRange" ∈ c ∧ "pivotValues" ∈ c)
    ∧ (makeChunks fields n).flatten = fields
    ∧ chunk_analytics_fields fields n = (makeChunks fields n).map forceBase := by
  refine ⟨?_, makeChunksAux_flatten n hn fields.length fields (Nat.le_refl _), rfl⟩
  intro c hc
  simp only [chunk_analytics_fields, List.mem_map] at hc
  obtain ⟨c0, _, rfl⟩ := hc
  exact ⟨mem_forceBase_dateRange c0, mem_forceBase_pivotValues c0⟩

/-- Witness for C3 at a concrete field list and chunk size 2. -/
theorem c3_chunk_analytics_fields_witness :
    (makeChunks ["a", "b", "c"] 2).flatten = ["a", "b", "c"]
    ∧ chunk_analytics_fields ["a", "b", "c"] 2
        = [["a", "b", "dateRange", "pivotValues"], ["c", "dateRange", "pivotValues"]] :=
  ⟨(c3_chunk_analytics_fields ["a", "b", "c"] 2 (by decide)).2.1, by decide⟩

/-! ## Date-range partitioner lemmas (C2) -/

theorem partitionAux_bounds (chunks : List String) (step gran : Int) (hstep : 1 ≤ step) :
    ∀ (fuel : Nat) (start endD : Int),
      ∀ sl ∈ partitionAux chunks step gran fuel start endD,
        start ≤ sl.startDate ∧ sl.endDate ≤ endD ∧ sl.endDate ≤ sl.startDate + step - gran := by
  intro fuel
  induction fuel with
  | zero => intro start endD sl h; cases h
  | succ fuel ih =>
    intro start endD sl h
    by_cases hse : start ≤ endD
    · simp only [partitionAux, hse, if_true, List.mem_cons] at h
      rcases h with h | h
      · subst h
        refine ⟨le_refl _, ?_, ?_⟩
        · exact min_le_right _ _
        · simp only [getDateMin, evaluateNextStartDateSafely]
          exact min_le_left _ _
      · obtain ⟨h1, h2, h3⟩ := ih (evaluateNextStartDateSafely start step) endD sl h
        refine ⟨?_, h2, h3⟩
        simp only [evaluateNextStartDateSafely] at h1
        omega
    · simp only [partitionAux, hse, if_false] at h
      cases h

theorem partitionAux_pairwise (chunks : List String) (step gran : Int)
    (hstep : 1 ≤ step) (hgran : 1 ≤ gran) :
    ∀ (fuel : Nat) (start endD : Int),
      List.Pairwise (fun a b => a.endDate < b.startDate)
        (partitionAux chunks step gran fuel start endD) := by
  intro fuel
  induction fuel with
  | zero => intro start endD; exact List.Pairwise.nil
  | succ fuel ih =>
    intro start endD
    by_cases hse : start ≤ endD
    · simp only [partitionAux, hse, if_true]
      refine List.Pairwise.cons ?_ (ih (evaluateNextStartDateSafely start step) endD)
      intro sl hsl
      obtain ⟨h1, _, _⟩ :=
        partitionAux_bounds chunks step gran hstep fuel
          (evaluateNextStartDateSafely start step) endD sl hsl
      simp only [getDateMin, evaluateNextStartDateSafely] at h1 ⊢
      have hmin : min (start + step - gran) endD ≤ start + step - gran := min_le_left _ _
      omega
    · simp only [partitionAux, hse, if_false]
      exact List.Pairwise.nil

/-- Claim C2: for every start, end and step with start at most end (step
positive, day granularity positive — the connector uses a one-day
granularity), the windows produced by `partition_daterange` never overlap
(each window ends strictly before the next begins), no window's end
exceeds the overall end (it is clamped with `min`), and when start equals
end exactly one slice is produced. -/
theorem c2_partition_daterange (chunks : List String) (step gran start endD : Int)
    (hstep : 1 ≤ step) (hgran : 1 ≤ gran) (hse : start ≤ endD) :
    List.Pairwise (fun a b => a.endDate < b.startDate)
        (partition_daterange chunks step gran start endD)
    ∧ (∀ sl ∈ partition_daterange chunks step gran start endD, sl.endDate ≤ endD)
    ∧ (start = endD → (partition_daterange chunks step gran start endD).length = 1) := by
  refine ⟨partitionAux_pairwise chunks step gran hstep hgran _ start endD, ?_, ?_⟩
  · intro sl hsl
    exact (partitionAux_bounds chunks step gran hstep _ start endD sl hsl).2.1
  · intro heq
    subst heq
    have hfuel : (start + 1 - start).toNat = 1 := by omega
    simp only [partition_daterange, hfuel, partitionAux, le_refl, if_true]
    rfl

/-- Witness for C2: a window of days 0..3 with a two-day step and one-day
granularity, and the one-slice case start = end. -/
theorem c2_partition_daterange_witness :
    List.Pairwise (fun a b => a.endDate < b.startDate)
        (partition_daterange ["fields"] 2 1 0 3)
    ∧ (partition_daterange ["fields"] 2 1 0 0).length = 1 :=
  ⟨(c2_partition_daterange ["fields"] 2 1 0 3 (by decide) (by decide) (by decide)).1,
   (c2_partition_daterange ["fields"] 2 1 0 0 (by decide) (by decide) (by decide)).2.2 rfl⟩

/-! ## Missing-cursor-field behaviour (C6) -/

theorem applyCutoff_missing (cf c : String) (records : List Rec) (r : Rec)
    (hc : c ≠ "") (hmem : r ∈ records) (hmiss : lookupField r cf = none) :
    applyCutoff cf (some c) records = none := by
  have hc' : (c == "") = false := beq_eq_false_iff_ne.mpr hc
  simp [applyCutoff, hc', filterGE_none cf c records r hmem hmiss]

/-- Counterexample for C6: with a non-empty cutoff (start date 2024-01-01,
no persisted state) and a single record lacking the cursor field, the claim
says the record is excluded and the rest returned (here: the empty list);
the code instead raises a `KeyError` (modelled as `none`). -/
theorem c6_counterexample :
    filter_records "lastModified" (some "2024-01-01") [] none [[("x", "1")]] = none
    ∧ filter_records "lastModified" (some "2024-01-01") [] none [[("x", "1")]]
        ≠ some ([] : List Rec) :=
  ⟨by decide, by decide⟩

/-- Claim C6 as amended: for every record list containing a record that
lacks the configured cursor field, `filter_records` with a non-empty
effective cutoff (from a start date, a persisted cursor, or both) raises a
`KeyError` (modelled as `none`) instead of tolerating the record. -/
theorem c6_missing_cursor_field (cf s v pid : String) (records : List Rec) (r : Rec)
    (hs : s ≠ "") (hv : v ≠ "") (hmem : r ∈ records) (hmiss : lookupField r cf = none) :
    filter_records cf (some s) [] (some pid) records = none
    ∧ filter_records cf (some s) [⟨some pid, [(cf, v)]⟩] (some pid) records = none := by
  have hmax : pyMax s v ≠ "" := by
    rcases pyMax_cases s v with h | h <;> rw [h] <;> assumption
  have hlook : lookupField [(cf, v)] cf = some v := by
    simp [lookupField, pyLookup_cons]
  constructor
  · simp only [filter_records, List.filter]
    rw [get_filter_date_no_state]
    exact applyCutoff_missing cf s records r hs hmem hmiss
  · simp only [filter_records, List.filter, beq_self_eq_true, hlook]
    rw [get_filter_date_both s v hs hv]
    exact applyCutoff_missing cf (pyMax s v) records r hmax hmem hmiss

/-- Witness for the amended C6 at a concrete record list. -/
theorem c6_missing_cursor_field_witness :
    filter_records "lastModified" (some "2024-01-01") [] (some "p")
        [[("lastModified", "2024-05-01")], [("x", "1")]] = none
    ∧ filter_records "lastModified" (some "2024-01-01")
        [⟨some "p", [("lastModified", "2024-03-15")]⟩] (some "p")
        [[("lastModified", "2024-05-01")], [("x", "1")]] = none :=
  c6_missing_cursor_field "lastModified" "2024-01-01" "2024-03-15" "p"
    [[("lastModified", "2024-05-01")], [("x", "1")]] [("x", "1")]
    (by decide) (by decide) (by decide) (by decide)

/-! ## Merge-by-key lemmas (C4) -/

theorem pyLookup_nil {α : Type} (k : String) : pyLookup ([] : List (String × α)) k = none :=
  rfl

theorem lookupField_recUpdate (a b : Rec) (f : String) (hb : (b.map Prod.fst).Nodup) :
    lookupField (recUpdate a b) f =
      match lookupField b f with
      | some v => some v
      | none => lookupField a f := by
  induction b generalizing a with
  | nil => rfl
  | cons kv b' ih =>
    simp only [List.map_cons, List.nodup_cons] at hb
    have hstep : recUpdate a (kv :: b') = recUpdate (dictSet a kv.1 kv.2) b' := by
      simp [recUpdate]
    rw [hstep, ih _ hb.2]
    by_cases hf : kv.1 = f
    · subst hf
      have h1 : lookupField b' kv.1 = none := pyLookup_eq_none b' kv.1 hb.1
      have h2 : lookupField (kv :: b') kv.1 = some kv.2 := by
        simp [lookupField, pyLookup_cons]
      have h3 : lookupField (dictSet a kv.1 kv.2) kv.1 = some kv.2 :=
        pyLookup_dictSet_self a kv.1 kv.2
      rw [h1, h2, h3]
    · have h2 : lookupField (kv :: b') f = lookupField b' f := by
        simp [lookupField, pyLookup_cons, hf]
      have h3 : lookupField (dictSet a kv.1 kv.2) f = lookupField a f :=
        pyLookup_dictSet_ne a kv.1 kv.2 f (fun hh => hf hh.symm)
      rw [h2, h3]

theorem lookupField_foldl_recUpdate (f : String) :
    ∀ (l : List Rec), (∀ r ∈ l, (r.map Prod.fst).Nodup) →
      ∀ init : Rec, lookupField (l.foldl recUpdate init) f =
        l.foldl (fun acc r =>
          match lookupField r f with
          | some v => some v
          | none => acc) (lookupField init f) := by
  intro l
  induction l with
  | nil => intro _ init; rfl
  | cons r l' ih =>
    intro hl init
    simp only [List.foldl_cons]
    rw [ih (fun x hx => hl x (List.mem_cons_of_mem r hx)) (recUpdate init r)]
    rw [lookupField_recUpdate init r f (hl r (List.mem_cons_self r l'))]

theorem lookupField_foldl_nil (l : List Rec) (f : String)
    (hl : ∀ r ∈ l, (r.map Prod.fst).Nodup) :
    lookupField (l.foldl recUpdate []) f = lastWrite f l := by
  rw [lookupField_foldl_recUpdate f l hl []]
  rfl

theorem pyLookup_accUpdate_self (acc : List (String × Rec)) (k : String) (r : Rec) :
    pyLookup (accUpdate acc k r) k = some (recUpdate ((pyLookup acc k).getD []) r) := by
  induction acc with
  | nil => simp [accUpdate, pyLookup_cons, pyLookup]
  | cons e rest ih =>
    by_cases he : e.1 = k
    · have hb : (e.1 == k) = true := beq_iff_eq.mpr he
      simp [accUpdate, hb, pyLookup_cons, he]
    · have hb : (e.1 == k) = false := beq_eq_false_iff_ne.mpr he
      simp [accUpdate, hb, pyLookup_cons, he, ih]

theorem pyLookup_accUpdate_ne (acc : List (String × Rec)) (k : String) (r : Rec)
    (k' : String) (h : k' ≠ k) :
    pyLookup (accUpdate acc k r) k' = pyLookup acc k' := by
  induction acc with
  | nil => simp [accUpdate, pyLookup_cons, Ne.symm h, pyLookup]
  | cons e rest ih =>
    by_cases he : e.1 = k
    · have hb : (e.1 == k) = true := beq_iff_eq.mpr he
      have he' : e.1 ≠ k' := by rw [he]; exact Ne.symm h
      simp [accUpdate, hb, pyLookup_cons, Ne.symm h, he', he]
    · have hb : (e.1 == k) = false := beq_eq_false_iff_ne.mpr he
      by_cases h2 : e.1 = k'
      · simp [accUpdate, hb, pyLookup_cons, h2, h]
      · simp [accUpdate, hb, pyLookup_cons, h2, h, ih]

theorem keys_accUpdate (acc : List (String × Rec)) (k : String) (r : Rec) :
    (accUpdate acc k r).map Prod.fst =
      if k ∈ acc.map Prod.fst then acc.map Prod.fst else acc.map Prod.fst ++ [k] := by
  induction acc with
  | nil => simp [accUpdate]
  | cons e rest ih =>
    by_cases he : e.1 = k
    · have hb : (e.1 == k) = true := beq_iff_eq.mpr he
      simp [accUpdate, hb, he]
    · have hb : (e.1 == k) = false := beq_eq_false_iff_ne.mpr he
      by_cases hk : k ∈ rest.map Prod.fst
      · simp [accUpdate, hb, ih, hk, Ne.symm he]
      · simp [accUpdate, hb, ih, hk, Ne.symm he]

theorem nodup_keys_accUpdate (acc : List (String × Rec)) (k : String) (r : Rec)
    (h : (acc.map Prod.fst).Nodup) : ((accUpdate acc k r).map Prod.fst).Nodup := by
  rw [keys_accUpdate]
  by_cases hk : k ∈ acc.map Prod.fst
  · simp only [hk, if_true]
    exact h
  · simp only [hk, if_false]
    simp [List.nodup_append, h, hk]

theorem mergeAcc_nodup (rs : List Rec) :
    ∀ (acc out : List (String × Rec)), (acc.map Prod.fst).Nodup →
      mergeAcc rs acc = some out → (out.map Prod.fst).Nodup := by
  induction rs with
  | nil =>
    intro acc out hacc h
    simp only [mergeAcc, Option.some.injEq] at h
    subst h
    exact hacc
  | cons r rs' ih =>
    intro acc out hacc h
    cases hck : compositeKey r with
    | none => simp [mergeAcc, hck] at h
    | some k0 =>
      simp only [mergeAcc, hck] at h
      exact ih (accUpdate acc k0 r) out (nodup_keys_accUpdate acc k0 r hacc) h

theorem mergeAcc_lookup (rs : List Rec) :
    ∀ (acc out : List (String × Rec)), mergeAcc rs acc = some out →
      ∀ k, pyLookup out k =
        mergedFor (pyLookup acc k) (rs.filter (fun r => compositeKey r == some k)) := by
  induction rs with
  | nil =>
    intro acc out h k
    simp only [mergeAcc, Option.some.injEq] at h
    subst h
    cases hpa : pyLookup acc k <;> simp [mergedFor, hpa]
  | cons r rs' ih =>
    intro acc out h k
    cases hck : compositeKey r with
    | none => simp [mergeAcc, hck] at h
    | some k0 =>
      simp only [mergeAcc, hck] at h
      have hx := ih (accUpdate acc k0 r) out h k
      by_cases hkk : k = k0
      · subst hkk
        rw [pyLookup_accUpdate_self acc k r] at hx
        rw [hx]
        have hpr : (compositeKey r == some k) = true := by
          rw [hck]
          exact beq_self_eq_true _
        have hfc : List.filter (fun r2 => compositeKey r2 == some k) (r :: rs')
            = r :: List.filter (fun r2 => compositeKey r2 == some k) rs' := by
          simp [List.filter_cons, hpr]
        rw [hfc]
        cases hpa : pyLookup acc k <;> simp [mergedFor, hpa]
      · rw [pyLookup_accUpdate_ne acc k0 r k hkk] at hx
        rw [hx]
        have hpr : (compositeKey r == some k) = false := by
          rw [hck]
          exact beq_eq_false_iff_ne.mpr (fun hh => hkk (Option.some.inj hh).symm)
        have hfc : List.filter (fun r2 => compositeKey r2 == some k) (r :: rs')
            = List.filter (fun r2 => compositeKey r2 == some k) rs' := by
          simp [List.filter_cons, hpr]
        rw [hfc]

/-- Claim C4: in the per-partition merge of `read_records`, all
chunk-response records sharing one composite key (the f-string of window
end date and pivot value) are union-merged into a single emitted record —
the merged dict has one entry per key, every contributing record's key is
present, and for any field the merged value is the last value written by
the records with that key, in chunk-iteration order (last write wins). -/
theorem c4_read_records_merge (chunkRecords : List (List Rec)) (out : List (String × Rec))
    (hn : ∀ r ∈ chunkRecords.flatten, (r.map Prod.fst).Nodup)
    (h : read_records_merged chunkRecords = some out) :
    (out.map Prod.fst).Nodup
    ∧ (∀ r ∈ chunkRecords.flatten, ∀ k, compositeKey r = some k →
        ∃ m, pyLookup out k = some m)
    ∧ (∀ k m, pyLookup out k = some m →
        ∀ f, lookupField m f =
          lastWrite f (chunkRecords.flatten.filter (fun r => compositeKey r == some k))) := by
  have hinv := mergeAcc_lookup chunkRecords.flatten [] out h
  refine ⟨mergeAcc_nodup chunkRecords.flatten [] out (by simp) h, ?_, ?_⟩
  · intro r hr k hk
    have hik := hinv k
    have hmem : r ∈ chunkRecords.flatten.filter (fun r => compositeKey r == some k) :=
      List.mem_filter.mpr ⟨hr, by rw [hk]; exact beq_self_eq_true _⟩
    cases hfil : chunkRecords.flatten.filter (fun r => compositeKey r == some k) with
    | nil => rw [hfil] at hmem; cases hmem
    | cons a l =>
      refine ⟨(a :: l).foldl recUpdate [], ?_⟩
      rw [hik, hfil]
      simp [mergedFor, pyLookup_nil]
  · intro k m hm f
    have hx := hinv k
    rw [hm] at hx
    cases hfil : chunkRecords.flatten.filter (fun r => compositeKey r == some k) with
    | nil =>
      rw [hfil] at hx
      simp [mergedFor, pyLookup_nil] at hx
    | cons a l =>
      rw [hfil] at hx
      simp only [mergedFor, pyLookup_nil, Option.getD_none, Option.some.injEq] at hx
      subst hx
      refine lookupField_foldl_nil (a :: l) f ?_
      intro x hxmem
      refine hn x ?_
      have hxf : x ∈ chunkRecords.flatten.filter (fun r => compositeKey r == some k) := by
        rw [hfil]
        exact hxmem
      exact List.mem_of_mem_filter hxf

/-- Witness for C4, the spec's concrete instance: two chunk records with
composite key 2024-03-31-pivotA and disjoint field sets merge into one
record containing the fields of both. -/
theorem c4_read_records_merge_witness :
    lookupField
        [("end_date", "2024-03-31"), ("pivotValues", "pivotA"), ("x", "1"), ("y", "2")] "x"
      = some "1"
    ∧ lookupField
        [("end_date", "2024-03-31"), ("pivotValues", "pivotA"), ("x", "1"), ("y", "2")] "y"
      = some "2" := by
  have h := c4_read_records_merge
      [[[("end_date", "2024-03-31"), ("pivotValues", "pivotA"), ("x", "1")]],
       [[("end_date", "2024-03-31"), ("pivotValues", "pivotA"), ("y", "2")]]]
      [("2024-03-31-pivotA",
        [("end_date", "2024-03-31"), ("pivotValues", "pivotA"), ("x", "1"), ("y", "2")])]
      (by decide) (by decide)
  constructor
  · exact (h.2.2 "2024-03-31-pivotA"
        [("end_date", "2024-03-31"), ("pivotValues", "pivotA"), ("x", "1"), ("y", "2")]
        (by decide) "x").trans (by decide)
  · exact (h.2.2 "2024-03-31-pivotA"
        [("end_date", "2024-03-31"), ("pivotValues", "pivotA"), ("x", "1"), ("y", "2")]
        (by decide) "y").trans (by decide)

/-! ## Paginated-fetch-loop behaviour (C5) -/

/-- Claim C5 (code bug): the paginated fetch loop is meant to terminate
after exactly N page fetches when the N-th response is falsy or carries no
next-page token, having yielded the records of every fetched page — but
the leftover `breakpoint()` on components.py line 331 sits inside the loop
body, between the fetch and the yield.  At the single-page failing input
(N = 1, one record on the final page), the loop under the default
unattended breakpoint semantics performs its one fetch and then aborts
without yielding the page's records, instead of terminating cleanly with
them; the same run with the breakpoint handing control back yields the
page and finishes cleanly after one fetch, exactly what the claim
describes, so the divergence is precisely the debug statement. -/
theorem c5_read_pages_breakpoint_bug :
    read_pages false fetchOnePage recsOfOnePage 5
      = { yielded := [], fetches := 1, raised := true }
    ∧ read_pages false fetchOnePage recsOfOnePage 5
      ≠ { yielded := [[("page", "1")]], fetches := 1, raised := false }
    ∧ read_pages true fetchOnePage recsOfOnePage 5
      = { yielded := [[("page", "1")]], fetches := 1, raised := false } :=
  ⟨by decide, by decide, by decide⟩

/-! ## Record-normalizer lemmas (C7) -/

/-- Counterexample for C7: `_date_time_to_rfc3339` mutates the input
record.  On the spec's example record the call succeeds, and the state of
the input record after the call is the rewritten mapping, not the original
one — so the claim's "the input record is not mutated" fails. -/
theorem c7_counterexample :
    (date_time_to_rfc3339_call pendulumModel [("created", "2023-05-01T10:00:00Z")]).map
        Prod.fst
      = some [("created", "2023-05-01T10:00:00+00:00")]
    ∧ some [("created", "2023-05-01T10:00:00+00:00")]
      ≠ some ([("created", "2023-05-01T10:00:00Z")] : Rec) :=
  ⟨by decide, by decide⟩

/-- Claim C7 as amended: `_date_time_to_rfc3339` is a per-record transform
that, whenever every configured present non-empty date-time value parses,
rewrites exactly those values to the parser's canonical RFC3339 output and
leaves every other entry untouched (`rewriteOne` relates each input entry
to its output entry) — but it performs the rewrite in place: after the
call the input record holds the rewritten mapping, aliasing the returned
record, rather than being left unmutated. -/
theorem c7_date_time_normalizer (parse : String → Option String) (r out : Rec)
    (h : date_time_to_rfc3339 parse r = some out) :
    date_time_to_rfc3339_call parse r = some (out, out)
    ∧ List.Forall₂ (fun kv kv2 => rewriteOne parse kv = some kv2) r out := by
  refine ⟨by simp [date_time_to_rfc3339_call, h], ?_⟩
  induction r generalizing out with
  | nil =>
    simp only [date_time_to_rfc3339, Option.some.injEq] at h
    subst h
    exact List.Forall₂.nil
  | cons kv rest ih =>
    simp only [date_time_to_rfc3339] at h
    cases hro : rewriteOne parse kv with
    | none =>
      rw [hro] at h
      simp at h
    | some kv2 =>
      rw [hro] at h
      cases hrest : date_time_to_rfc3339 parse rest with
      | none =>
        rw [hrest] at h
        simp at h
      | some out' =>
        rw [hrest] at h
        simp at h
        subst h
        exact List.Forall₂.cons hro (ih out' hrest)

/-- Witness for the amended C7: the example record is rewritten in place —
the configured non-empty field is canonicalised, the empty and
unconfigured fields are untouched, and the post-call state of the input
equals the returned record. -/
theorem c7_date_time_normalizer_witness :
    date_time_to_rfc3339_call pendulumModel
        [("created", "2023-05-01T10:00:00Z"), ("lastModified", ""), ("other", "x")]
      = some
          ([("created", "2023-05-01T10:00:00+00:00"), ("lastModified", ""), ("other", "x")],
           [("created", "2023-05-01T10:00:00+00:00"), ("lastModified", ""), ("other", "x")])
    ∧ List.Forall₂ (fun kv kv2 => rewriteOne pendulumModel kv = some kv2)
        [("created", "2023-05-01T10:00:00Z"), ("lastModified", ""), ("other", "x")]
        [("created", "2023-05-01T10:00:00+00:00"), ("lastModified", ""), ("other", "x")] :=
  c7_date_time_normalizer pendulumModel
    [("created", "2023-05-01T10:00:00Z"), ("lastModified", ""), ("other", "x")]
    [("created", "2023-05-01T10:00:00+00:00"), ("lastModified", ""), ("other", "x")]
    (by decide)

/-! ## Schema-merger lemmas (C8, C9, C10) -/

theorem is_valid_type_eq (t : Option String) (h : is_valid_type t = true) :
    t = some "string" := by
  cases t with
  | none => simp [is_valid_type] at h
  | some s =>
    simp only [is_valid_type, supported_types] at h
    have : s = "string" := by
      simpa using h
    rw [this]

theorem merge_schemas_valid (s1 s2 : Schema)
    (hv : ∀ kv ∈ s1 ++ s2, is_valid_type kv.2 = true) :
    merge_schemas s1 s2 = mergeLoop s1 s2 := by
  have hnone : (s1 ++ s2).find? (fun kv => !(is_valid_type kv.2)) = none := by
    rw [List.find?_eq_none]
    intro x hx
    simp [hv x hx]
  simp [merge_schemas, hnone]

theorem mergeLoop_disjoint :
    ∀ (s2 merged : Schema), (∀ kv ∈ s2, ¬ kv.1 ∈ merged.map Prod.fst) →
      (s2.map Prod.fst).Nodup →
      mergeLoop merged s2 = .ok (merged ++ s2) := by
  intro s2
  induction s2 with
  | nil =>
    intro merged _ _
    simp [mergeLoop]
  | cons kv rest ih =>
    intro merged hdisj hnd
    obtain ⟨k2, t2⟩ := kv
    simp only [List.map_cons, List.nodup_cons] at hnd
    have hk : ¬ k2 ∈ merged.map Prod.fst := hdisj (k2, t2) (List.mem_cons_self _ _)
    have hget : pyGet merged k2 = none := by
      simp [pyGet, pyLookup_eq_none merged k2 hk]
    simp only [mergeLoop, hget]
    rw [dictSet_of_not_mem merged k2 t2 hk]
    rw [ih (merged ++ [(k2, t2)]) ?_ hnd.2]
    · simp
    · intro x hx
      simp only [List.map_append, List.mem_append]
      push_neg
      refine ⟨hdisj x (List.mem_cons_of_mem _ hx), ?_⟩
      intro hq
      simp only [List.map_cons, List.map_nil, List.mem_singleton] at hq
      exact hnd.1 (hq ▸ List.mem_map_of_mem Prod.fst hx)

/-- Claim C8: for every pair of schemas with disjoint key sets whose type
values all pass the supported-type validation, `merge_schemas` succeeds
and returns the schema holding exactly the union of both inputs — the
concatenation in order, so every key keeps its original type unchanged. -/
theorem c8_merge_schemas_disjoint (s1 s2 : Schema)
    (hv : ∀ kv ∈ s1 ++ s2, is_valid_type kv.2 = true)
    (hd : ∀ kv ∈ s1, ¬ kv.1 ∈ s2.map Prod.fst)
    (hn2 : (s2.map Prod.fst).Nodup) :
    merge_schemas s1 s2 = .ok (s1 ++ s2)
    ∧ (∀ kv, kv ∈ s1 ++ s2 ↔ kv ∈ s1 ∨ kv ∈ s2) := by
  refine ⟨?_, fun kv => List.mem_append⟩
  rw [merge_schemas_valid s1 s2 hv]
  refine mergeLoop_disjoint s2 s1 ?_ hn2
  intro kv hkv hmem
  obtain ⟨kv', hkv', heq⟩ := List.mem_map.mp hmem
  exact hd kv' hkv' (heq ▸ List.mem_map_of_mem Prod.fst hkv)

/-- Witness for C8 at two concrete disjoint schemas. -/
theorem c8_merge_schemas_disjoint_witness :
    merge_schemas [("a", some "string")] [("b", some "string")]
      = .ok [("a", some "string"), ("b", some "string")] :=
  ((c8_merge_schemas_disjoint [("a", some "string")] [("b", some "string")]
      (by decide) (by decide) (by decide)).1).trans rfl

/-- Counterexample for C9: a key present in both schemas with the two
differing concrete types string and integer makes `merge_schemas` fail
with the eager-validation `AssertionError` (naming the key and the
unsupported type), not with the `SchemaInferenceError` the claim names. -/
theorem c9_counterexample :
    merge_schemas [("a", some "string")] [("a", some "integer")]
      = .error (.assertionError "a" (some "integer"))
    ∧ merge_schemas [("a", some "string")] [("a", some "integer")]
      ≠ .error (.inferenceConflict "a" "string" "integer") := by
  refine ⟨rfl, ?_⟩
  intro hcontra
  rw [show merge_schemas [("a", some "string")] [("a", some "integer")]
      = .error (.assertionError "a" (some "integer")) from rfl] at hcontra
  simp at hcontra

/-- Claim C9 as amended: for every key present in both input schemas with
two concrete, differing types, `merge_schemas` fails — but with the eager
validation `AssertionError` on the first unsupported type, because two
differing types cannot both lie in the supported-type set (which holds
only the string type); `_choose_wider_type` and its
`SchemaInferenceError` are never reached from `merge_schemas`. -/
theorem c9_merge_schemas_conflict (s1 s2 : Schema) (k t1 t2 : String)
    (h1 : (k, some t1) ∈ s1) (h2 : (k, some t2) ∈ s2) (hne : t1 ≠ t2) :
    isAssertionError (merge_schemas s1 s2) = true := by
  have hbad : ∃ kv ∈ s1 ++ s2, (!(is_valid_type kv.2)) = true := by
    by_cases ha : t1 = "string"
    · refine ⟨(k, some t2), List.mem_append_right _ h2, ?_⟩
      have ht2 : ¬ t2 = "string" := fun hh => hne (ha.trans hh.symm)
      simp [is_valid_type, supported_types, ht2]
    · refine ⟨(k, some t1), List.mem_append_left _ h1, ?_⟩
      simp [is_valid_type, supported_types, ha]
  have hsome : ((s1 ++ s2).find? (fun kv => !(is_valid_type kv.2))).isSome := by
    rw [List.find?_isSome]
    exact hbad
  obtain ⟨kv', hfind⟩ := Option.isSome_iff_exists.mp hsome
  simp [merge_schemas, hfind, isAssertionError]

/-- Witness for the amended C9 at the concrete conflicting pair. -/
theorem c9_merge_schemas_conflict_witness :
    isAssertionError (merge_schemas [("a", some "string")] [("a", some "integer")]) = true :=
  c9_merge_schemas_conflict [("a", some "string")] [("a", some "integer")]
    "a" "string" "integer" (by decide) (by decide) (by decide)

theorem contains_eq_decide_mem (l : List String) (a : String) :
    l.contains a = decide (a ∈ l) := by
  by_cases hm : a ∈ l
  · have ht : l.contains a = true := List.elem_iff.mpr hm
    simp [ht, hm]
  · have hf : l.contains a = false := by
      cases hcc : l.contains a
      · rfl
      · exact absurd (List.elem_iff.mp hcc) hm
    simp [hf, hm]

theorem pyGet_valid (merged : Schema) (k : String)
    (hv : ∀ kv ∈ merged, is_valid_type kv.2 = true) (hk : k ∈ merged.map Prod.fst) :
    pyGet merged k = some "string" := by
  induction merged with
  | nil => simp at hk
  | cons kv rest ih =>
    by_cases h : kv.1 = k
    · have h2 : kv.2 = some "string" :=
        is_valid_type_eq kv.2 (hv kv (List.mem_cons_self _ _))
      simp [pyGet, pyLookup_cons, h, h2]
    · have hk' : k ∈ rest.map Prod.fst := by
        simp only [List.map_cons, List.mem_cons] at hk
        rcases hk with hk | hk
        · exact absurd hk.symm h
        · exact hk
      have hrw : pyGet (kv :: rest) k = pyGet rest k := by
        simp [pyGet, pyLookup_cons, h]
      rw [hrw]
      exact ih (fun x hx => hv x (List.mem_cons_of_mem _ hx)) hk'

theorem mergeLoop_valid :
    ∀ (s2 merged : Schema),
      (∀ kv ∈ merged, is_valid_type kv.2 = true) →
      (∀ kv ∈ s2, is_valid_type kv.2 = true) →
      (s2.map Prod.fst).Nodup →
      mergeLoop merged s2
        = .ok (merged ++ s2.filter (fun kv => !((merged.map Prod.fst).contains kv.1))) := by
  intro s2
  induction s2 with
  | nil =>
    intro merged _ _ _
    simp [mergeLoop]
  | cons kv rest ih =>
    intro merged hvm hv2 hnd
    obtain ⟨k2, t2⟩ := kv
    have ht2 : t2 = some "string" :=
      is_valid_type_eq t2 (hv2 (k2, t2) (List.mem_cons_self _ _))
    subst ht2
    simp only [List.map_cons, List.nodup_cons] at hnd
    by_cases hk : k2 ∈ merged.map Prod.fst
    · have hget : pyGet merged k2 = some "string" := pyGet_valid merged k2 hvm hk
      have hcon : ((merged.map Prod.fst).contains k2) = true := List.elem_iff.mpr hk
      simp only [mergeLoop, hget, if_true]
      rw [ih merged hvm (fun x hx => hv2 x (List.mem_cons_of_mem _ hx)) hnd.2]
      obtain ⟨a, ha, hfa⟩ := List.mem_map.mp hk
      have hk2 : ∃ x, (k2, x) ∈ merged := ⟨a.2, by rw [← hfa]; exact ha⟩
      have hfc : List.filter (fun kv => !((merged.map Prod.fst).contains kv.1))
            ((k2, some "string") :: rest)
          = List.filter (fun kv => !((merged.map Prod.fst).contains kv.1)) rest := by
        simp [List.filter_cons, hk, hk2]
      rw [hfc]
    · have hget : pyGet merged k2 = none := by
        simp [pyGet, pyLookup_eq_none merged k2 hk]
      have hcon : ((merged.map Prod.fst).contains k2) = false := by
        cases hc : (merged.map Prod.fst).contains k2
        · rfl
        · exact absurd (List.elem_iff.mp hc) hk
      have hvm2 : ∀ kv ∈ merged ++ [(k2, some "string")], is_valid_type kv.2 = true := by
        intro x hx
        rcases List.mem_append.mp hx with hxa | hxa
        · exact hvm x hxa
        · simp only [List.mem_singleton] at hxa
          subst hxa
          simp [is_valid_type, supported_types]
      simp only [mergeLoop, hget]
      rw [dictSet_of_not_mem merged k2 (some "string") hk]
      rw [ih (merged ++ [(k2, some "string")]) hvm2
        (fun x hx => hv2 x (List.mem_cons_of_mem _ hx)) hnd.2]
      have hfilt : List.filter
            (fun kv => !(((merged ++ [(k2, some "string")]).map Prod.fst).contains kv.1)) rest
          = List.filter (fun kv => !((merged.map Prod.fst).contains kv.1)) rest := by
        refine List.filter_congr ?_
        intro x hx
        have hxne : x.1 ≠ k2 := fun hh => hnd.1 (hh ▸ List.mem_map_of_mem Prod.fst hx)
        have hiff : (x.1 ∈ (merged ++ [(k2, some "string")]).map Prod.fst)
            ↔ (x.1 ∈ merged.map Prod.fst) := by
          simp [hxne]
        rw [contains_eq_decide_mem, contains_eq_decide_mem, decide_eq_decide.mpr hiff]
      rw [hfilt]
      have hk2n : ∀ x : Option String, (k2, x) ∉ merged :=
        fun x hx => hk (List.mem_map_of_mem Prod.fst hx)
      have hfc : List.filter (fun kv => !((merged.map Prod.fst).contains kv.1))
            ((k2, some "string") :: rest)
          = (k2, some "string")
              :: List.filter (fun kv => !((merged.map Prod.fst).contains kv.1)) rest := by
        simp [List.filter_cons, hk2n]
      rw [hfc]
      simp

/-- Claim C10 (implicit): for every pair of schemas that pass the eager
validation of `merge_schemas` — every type value in the supported set,
which holds only the string type — any key present in both inputs
necessarily carries equal types, so the type-widening branch and
`SchemaInferenceError` are unreachable and `merge_schemas` always
succeeds, returning the plain key-union of the two inputs (the first
schema followed by the second's entries whose keys are new). -/
theorem c10_merge_schemas_total (s1 s2 : Schema)
    (hv : ∀ kv ∈ s1 ++ s2, is_valid_type kv.2 = true)
    (hn2 : (s2.map Prod.fst).Nodup) :
    merge_schemas s1 s2
      = .ok (s1 ++ s2.filter (fun kv => !((s1.map Prod.fst).contains kv.1)))
    ∧ (∀ kv kv2, kv ∈ s1 → kv2 ∈ s2 → kv.1 = kv2.1 → kv.2 = kv2.2) := by
  constructor
  · rw [merge_schemas_valid s1 s2 hv]
    exact mergeLoop_valid s2 s1 (fun kv hk => hv kv (List.mem_append_left _ hk))
      (fun kv hk => hv kv (List.mem_append_right _ hk)) hn2
  · intro kv kv2 h1 h2 _
    have e1 := is_valid_type_eq kv.2 (hv kv (List.mem_append_left _ h1))
    have e2 := is_valid_type_eq kv2.2 (hv kv2 (List.mem_append_right _ h2))
    rw [e1, e2]

/-- Witness for C10 at two concrete valid schemas sharing the key b. -/
theorem c10_merge_schemas_total_witness :
    merge_schemas [("a", some "string"), ("b", some "string")]
        [("b", some "string"), ("c", some "string")]
      = .ok [("a", some "string"), ("b", some "string"), ("c", some "string")] := by
  have h := (c10_merge_schemas_total
      [("a", some "string"), ("b", some "string")]
      [("b", some "string"), ("c", some "string")]
      (by decide) (by decide)).1
  exact h.trans rfl
